import Mathlib

/-!
# Verification of the openCeFaDB metadata download pipeline

Shallow embedding of the metadata-dataset resolution and download pipeline of
the openCeFaDB repository: `opencefadb/utils.py` (`download_file`,
`download_multiple_files`, `_parse_checksum_algorithm`), `opencefadb/dbinit.py`
(`_url_hash`, `_parse_media_type`, `download_metadata_datasets`) and
`opencefadb/core.py` (`MediaType.parse` and the media-type row filter of
`_download_metadata_datasets`).

Python strings are modelled as `List Char`, byte strings as `List Nat` (each
element `< 256`), machine words as `Nat` reduced `% 2 ^ 32` where overflow
matters.  Network responses, the Zenodo record resolver and the `hashlib`
digest registry are external inputs and are passed as explicit parameters.
`hashlib.sha256` is modelled by a full FIPS 180-4 SHA-256 implementation.
-/

set_option maxRecDepth 100000

/-! ## Big-endian digit values -/

/-- Value of a big-endian digit list in base `b`. -/
def valBE (b : Nat) : List Nat → Nat
  | [] => 0
  | d :: ds => d * b ^ ds.length + valBE b ds

/-! ## SHA-256 (FIPS 180-4), modelling `hashlib.sha256` -/

/-- Truncation to a 32-bit word. -/
def w32 (n : Nat) : Nat := n % 2 ^ 32

/-- 32-bit right rotation (inputs are already reduced words). -/
def rotr (r x : Nat) : Nat := ((x >>> r) ||| (x <<< (32 - r))) % 2 ^ 32

/-- The 64 SHA-256 round constants, in decimal. -/
def sha256K : List Nat :=
  [1116352408, 1899447441, 3049323471, 3921009573, 961987163, 1508970993,
   2453635748, 2870763221, 3624381080, 310598401, 607225278, 1426881987,
   1925078388, 2162078206, 2614888103, 3248222580, 3835390401, 4022224774,
   264347078, 604807628, 770255983, 1249150122, 1555081692, 1996064986,
   2554220882, 2821834349, 2952996808, 3210313671, 3336571891, 3584528711,
   113926993, 338241895, 666307205, 773529912, 1294757372, 1396182291,
   1695183700, 1986661051, 2177026350, 2456956037, 2730485921, 2820302411,
   3259730800, 3345764771, 3516065817, 3600352804, 4094571909, 275423344,
   430227734, 506948616, 659060556, 883997877, 958139571, 1322822218,
   1537002063, 1747873779, 1955562222, 2024104815, 2227730452, 2361852424,
   2428436474, 2756734187, 3204031479, 3329325298]

/-- The SHA-256 working state: eight 32-bit words. -/
structure Hash8 where
  a : Nat
  b : Nat
  c : Nat
  d : Nat
  e : Nat
  f : Nat
  g : Nat
  h : Nat
deriving DecidableEq

/-- The SHA-256 initial hash value, in decimal. -/
def sha256H0 : Hash8 :=
  ⟨1779033703, 3144134277, 1013904242, 2773480762,
   1359893119, 2600822924, 528734635, 1541459225⟩

/-- SHA-256 padding: append `0x80`, zero bytes and the 64-bit big-endian
bit length, so the total length is a multiple of 64 bytes. -/
def padMessage (msg : List Nat) : List Nat :=
  let bitLen := msg.length * 8
  let z := (64 + 56 - (msg.length + 1) % 64) % 64
  msg ++ 0x80 :: List.replicate z 0 ++
    (List.range 8).map (fun i => bitLen / 2 ^ (8 * (7 - i)) % 256)

/-- Split a byte list into 64-byte blocks (structural recursion on a fuel
bound, so the definition reduces in the kernel; `fuel ≥ l.length` always
holds at the call site). -/
def toBlocksAux : Nat → List Nat → List (List Nat)
  | 0, _ => []
  | _, [] => []
  | fuel + 1, a :: as => (a :: as.take 63) :: toBlocksAux fuel (as.drop 63)

/-- Split a byte list into 64-byte blocks. -/
def toBlocks (l : List Nat) : List (List Nat) := toBlocksAux l.length l

/-- Group bytes into big-endian 32-bit words. -/
def bytesToWords : List Nat → List Nat
  | b0 :: b1 :: b2 :: b3 :: rest => (((b0 * 256 + b1) * 256 + b2) * 256 + b3) :: bytesToWords rest
  | _ => []

/-- One step of the SHA-256 message-schedule extension: append word `w.length`. -/
def scheduleStep (w : List Nat) : List Nat :=
  let i := w.length
  let x15 := w.getD (i - 15) 0
  let x2 := w.getD (i - 2) 0
  let s0 := (rotr 7 x15) ^^^ (rotr 18 x15) ^^^ (x15 >>> 3)
  let s1 := (rotr 17 x2) ^^^ (rotr 19 x2) ^^^ (x2 >>> 10)
  w ++ [w32 (w.getD (i - 16) 0 + s0 + w.getD (i - 7) 0 + s1)]

/-- Extend the 16 block words to the 64-entry message schedule. -/
def schedule (w : List Nat) : List Nat :=
  (List.range 48).foldl (fun acc _ => scheduleStep acc) w

/-- One SHA-256 compression round. -/
def sha256Round (s : Hash8) (k w : Nat) : Hash8 :=
  let bigS1 := (rotr 6 s.e) ^^^ (rotr 11 s.e) ^^^ (rotr 25 s.e)
  let ch := (s.e &&& s.f) ^^^ ((s.e ^^^ 0xffffffff) &&& s.g)
  let t1 := w32 (s.h + bigS1 + ch + k + w)
  let bigS0 := (rotr 2 s.a) ^^^ (rotr 13 s.a) ^^^ (rotr 22 s.a)
  let maj := (s.a &&& s.b) ^^^ (s.a &&& s.c) ^^^ (s.b &&& s.c)
  let t2 := w32 (bigS0 + maj)
  ⟨w32 (t1 + t2), s.a, s.b, s.c, w32 (s.d + t1), s.e, s.f, s.g⟩

/-- Process one 64-byte block. -/
def processBlock (st : Hash8) (block : List Nat) : Hash8 :=
  let ws := schedule (bytesToWords block)
  let s := (sha256K.zip ws).foldl (fun s kw => sha256Round s kw.1 kw.2) st
  ⟨w32 (st.a + s.a), w32 (st.b + s.b), w32 (st.c + s.c), w32 (st.d + s.d),
   w32 (st.e + s.e), w32 (st.f + s.f), w32 (st.g + s.g), w32 (st.h + s.h)⟩

/-- SHA-256 digest of a byte list, as a natural number below `2 ^ 256`. -/
def sha256Bytes (msg : List Nat) : Nat :=
  let fin := (toBlocks (padMessage msg)).foldl processBlock sha256H0
  valBE (2 ^ 32) [fin.a, fin.b, fin.c, fin.d, fin.e, fin.f, fin.g, fin.h]

/-- The `k` big-endian base-16 digits of `n` (most significant first). -/
def hexDigitsBE : Nat → Nat → List Nat
  | 0, _ => []
  | k + 1, n => (n / 16 ^ k % 16) :: hexDigitsBE k n

/-- Lower-case hex digit characters, as produced by `hexdigest()`. -/
def hexChar (d : Nat) : Char :=
  if d < 10 then Char.ofNat (48 + d) else Char.ofNat (87 + d)

/-- Lower-case hexadecimal rendering of a SHA-256 digest (64 characters). -/
def sha256Hex (msg : List Nat) : List Char :=
  (hexDigitsBE 64 (sha256Bytes msg)).map hexChar

/-! ## UTF-8 encoding, modelling `str.encode("utf-8")` -/

/-- UTF-8 encoding of a single code point. -/
def utf8Char (c : Char) : List Nat :=
  let n := c.toNat
  if n < 0x80 then [n]
  else if n < 0x800 then
    [0xc0 ||| (n >>> 6), 0x80 ||| (n &&& 0x3f)]
  else if n < 0x10000 then
    [0xe0 ||| (n >>> 12), 0x80 ||| ((n >>> 6) &&& 0x3f), 0x80 ||| (n &&& 0x3f)]
  else
    [0xf0 ||| (n >>> 18), 0x80 ||| ((n >>> 12) &&& 0x3f),
     0x80 ||| ((n >>> 6) &&& 0x3f), 0x80 ||| (n &&& 0x3f)]

/-- UTF-8 encoding of a string. -/
def utf8 (s : List Char) : List Nat := s.flatMap utf8Char

/-! ## Python string and `pathlib` helpers -/

/-- Index of the last occurrence of `c` (Python `str.rfind`), if any. -/
def lastIndexOf (c : Char) : List Char → Option Nat
  | [] => none
  | a :: as =>
    match lastIndexOf c as with
    | some i => some (i + 1)
    | none => if a = c then some 0 else none

/-- The part of `l` after the last occurrence of `c`; `l` itself when `c`
does not occur.  Models Python `s.rsplit(c, 1)[-1]` for a one-character
separator. -/
def afterLastChar (c : Char) (l : List Char) : List Char :=
  (l.reverse.takeWhile (fun a => a ≠ c)).reverse

/-- `pathlib.PurePath.suffix` of a single path component: the substring from
the last dot on, provided that dot is neither the first nor the last
character; otherwise the empty string. -/
def pathSuffix (name : List Char) : List Char :=
  match lastIndexOf '.' name with
  | some i => if 0 < i ∧ i < name.length - 1 then name.drop i else []
  | none => []

/-- Does `pre` occur at the start of `l` (Python `str.startswith`)? -/
def startsWithStr (pre l : List Char) : Bool := pre.isPrefixOf l

/-- The part of `l` strictly after the last occurrence of the pattern `pat`,
if `pat` occurs in `l` at all. -/
def afterLastInfixAux (pat : List Char) : List Char → Option (List Char)
  | [] => none
  | a :: as =>
    match afterLastInfixAux pat as with
    | some r => some r
    | none =>
      if pat.isPrefixOf (a :: as) then some ((a :: as).drop pat.length) else none

/-- Python `s.rsplit(pat, 1)[-1]` for a non-empty pattern: the part after the
last occurrence of `pat`, or all of `l` when `pat` does not occur. -/
def afterLastInfix (pat l : List Char) : List Char :=
  (afterLastInfixAux pat l).getD l

/-- Does `pat` occur anywhere in `l` (Python `pat in s`)? -/
def hasInfix (pat : List Char) : List Char → Bool
  | [] => pat.isPrefixOf ([] : List Char)
  | a :: as => pat.isPrefixOf (a :: as) || hasInfix pat as

/-- Python `str.lower` (sufficient for the ASCII algorithm names involved). -/
def lowerStr (l : List Char) : List Char := l.map Char.toLower

/-! ## `opencefadb/dbinit.py`: URL hashing and target paths -/

/-- `dbinit._url_hash`: `hashlib.sha256(url.encode("utf-8")).hexdigest()`. -/
def url_hash (url : List Char) : List Char := sha256Hex (utf8 url)

/-- The per-distribution target file name computed inside
`dbinit.download_metadata_datasets`:
`_url_hash(download_url) + pathlib.Path(download_url.rsplit('/', 1)[-1]).suffix`. -/
def target_name (url : List Char) : List Char :=
  url_hash url ++ pathSuffix (afterLastChar '/' url)

/-- The target path `download_dir / _name` as a string
(POSIX join of the download directory and the computed file name). -/
def target_path (download_dir url : List Char) : List Char :=
  download_dir ++ '/' :: target_name url

/-! ## `opencefadb/utils.py`: `_parse_checksum_algorithm` and `download_file`

The HTTP layer is an input: a call is given the `Response` (status code and
streamed body chunks) that `requests.get(download_url, stream=True)` would
produce.  The `hashlib` registry is likewise an input: a partial map from
algorithm names to hex-digest functions over byte lists. -/

/-- `utils._parse_checksum_algorithm`: normalize a checksum algorithm name;
`ValueError` (modelled as `Except.error ()`) for unsupported names. -/
def parse_checksum_algorithm (algorithm : List Char) : Except Unit (List Char) :=
  if algorithm = "sha256".data ∨ algorithm = "sha-256".data ∨ algorithm = "sha_256".data then
    .ok "sha256".data
  else if algorithm = "md5".data ∨ algorithm = "md-5".data ∨ algorithm = "md_5".data then
    .ok "md5".data
  else if algorithm = "sha1".data ∨ algorithm = "sha-1".data ∨ algorithm = "sha_1".data then
    .ok "sha1".data
  else if hasInfix "spdx.org/rdf/terms#".data algorithm then
    .ok (afterLastChar '_' algorithm)
  else if startsWithStr "http:".data algorithm then
    .ok (lowerStr (afterLastChar '/' algorithm))
  else .error ()

/-- Errors `download_file` can raise: `ValueError` (missing or unsupported
checksum algorithm), `requests.HTTPError` (from `raise_for_status`), and the
checksum-mismatch `ValueError` raised after the write completes. -/
inductive DlError where
  | valueError
  | httpError
  | checksumMismatch
deriving DecidableEq

/-- An HTTP response, as consumed by `download_file`: the status code and the
body as the chunk sequence yielded by `response.iter_content`. -/
structure Response where
  status : Nat
  chunks : List (List Nat)
deriving DecidableEq

/-- The `hashlib` registry: `hashlib.new(name)` either provides a hex-digest
function over byte strings or raises (modelled as `none`). -/
abbrev HashRegistry := List Char → Option (List Nat → List Char)

/-- Observable effects of one `download_file` call: HTTP requests issued,
file writes performed (path and full content), and the outcome. -/
structure DLOut where
  requests : List (List Char)
  written : List (List Char × List Nat)
  result : Except DlError (List Char)

/-- The streaming loop of `download_file`: each non-empty chunk is written to
the file and fed to the hasher; the first component is the bytes written, the
second the bytes hashed. -/
def downloadLoop (chunks : List (List Nat)) : List Nat × List Nat :=
  chunks.foldl (fun acc ch => if ch = [] then acc else (acc.1 ++ ch, acc.2 ++ ch)) ([], [])

/-- The part of `download_file` after checksum-argument validation: issue the
GET, `raise_for_status`, create the hasher via `hashlib.new`, stream the body
to the target file, and finally compare the accumulated digest. -/
def download_file_go (hashlib : HashRegistry) (download_url target_filename : List Char)
    (chk : Option (List Char × List Char)) (resp : Response) : DLOut :=
  if 400 ≤ resp.status ∧ resp.status < 600 then ⟨[download_url], [], .error .httpError⟩
  else
    match chk with
    | some (cval, algName) =>
      match hashlib algName with
      | none => ⟨[download_url], [], .error .valueError⟩
      | some digestHex =>
        let loop := downloadLoop resp.chunks
        if digestHex loop.2 = cval then
          ⟨[download_url], [(target_filename, loop.1)], .ok target_filename⟩
        else
          ⟨[download_url], [(target_filename, loop.1)], .error .checksumMismatch⟩
    | none =>
      let loop := downloadLoop resp.chunks
      ⟨[download_url], [(target_filename, loop.1)], .ok target_filename⟩

/-- `utils.download_file`: validate the checksum arguments, then download.
Returns the effects of the call; `result` is the returned path or the raised
exception. -/
def download_file (hashlib : HashRegistry) (download_url target_filename : List Char)
    (checksum checksum_algorithm : Option (List Char)) (resp : Response) : DLOut :=
  match checksum with
  | some cval =>
    match checksum_algorithm with
    | none => ⟨[], [], .error .valueError⟩
    | some alg =>
      match parse_checksum_algorithm alg with
      | .error _ => ⟨[], [], .error .valueError⟩
      | .ok algName => download_file_go hashlib download_url target_filename (some (cval, algName)) resp
  | none => download_file_go hashlib download_url target_filename none resp

/-! ## `opencefadb/utils.py`: `download_multiple_files` -/

/-- One scheduled download task: the zipped `(url, target_filename, checksum
dict)` triple handed to `download_file`. -/
structure DlTask where
  url : List Char
  target : List Char
  checksum : Option (List Char)
  checksum_algorithm : Option (List Char)
deriving DecidableEq

/-- Observable behaviour of one `download_multiple_files` call. -/
structure SchedOut where
  result : Except DlError (List (List Char))
  requests : List (List Char)
  written : List (List Char × List Nat)

/-- Outcome of one scheduled task: the `download_file` call made for the
zipped `(task, response)` pair. -/
def task_outcome (hashlib : HashRegistry) (tr : DlTask × Response) : DLOut :=
  download_file hashlib tr.1.url tr.1.target tr.1.checksum tr.1.checksum_algorithm tr.2

/-- The `max_workers == 1` branch: a plain list comprehension, so the first
exception propagates out and the remaining tasks never run. -/
def seq_downloads (hashlib : HashRegistry) : List (DlTask × Response) → SchedOut
  | [] => ⟨.ok [], [], []⟩
  | (t, r) :: rest =>
    let o := download_file hashlib t.url t.target t.checksum t.checksum_algorithm r
    match o.result with
    | .error e => ⟨.error e, o.requests, o.written⟩
    | .ok p =>
      let s := seq_downloads hashlib rest
      ⟨s.result.map (fun ps => p :: ps), o.requests ++ s.requests, o.written ++ s.written⟩

/-- `utils.download_multiple_files`: sequential for `max_workers == 1`;
otherwise every task runs in the pool, futures are awaited in submission
order, and a failed future is logged and skipped while the other results are
collected. -/
def download_multiple_files (hashlib : HashRegistry) (tasks : List DlTask)
    (resps : List Response) (max_workers : Nat) : SchedOut :=
  if max_workers = 1 then seq_downloads hashlib (tasks.zip resps)
  else
    let outs := (tasks.zip resps).map (task_outcome hashlib)
    ⟨.ok (outs.filterMap (fun o => o.result.toOption)),
     outs.flatMap (fun o => o.requests), outs.flatMap (fun o => o.written)⟩

/-! ## Media types

Both `opencefadb/core.py` and `opencefadb/dbinit.py` define a `MediaType`
enum and a parser that first applies `str(...)` (so a Python `None` becomes
the string `"None"`), strips `http(s)://.../media-types/` prefixes, and falls
back to `None` when the value is not a member of the enum. -/

/-- Python `str(x)` for an optional string (an absent RDF binding is `None`,
and `str(None)` is the string `"None"`). -/
def pyStrOpt (v : Option (List Char)) : List Char := v.getD "None".data

/-- The URI-stripping step shared by `core.MediaType.parse` and
`dbinit._parse_media_type`. -/
def stripMediaTypeUri (s : List Char) : List Char :=
  if startsWithStr "https://".data s then afterLastInfix "media-types/".data s
  else if startsWithStr "http://".data s then afterLastInfix "media-types/".data s
  else s

namespace Core

/-- `core.MediaType`: the nine-member enum. -/
inductive MediaType where
  | JSON_LD
  | TURTLE
  | IGES
  | IGS
  | CSV
  | TXT
  | XML
  | XML2
  | HDF5
deriving DecidableEq

/-- Enum lookup `MediaType(value)`, `None` on `ValueError`. -/
def MediaType.ofValue (s : List Char) : Option MediaType :=
  if s = "application/ld+json".data then some .JSON_LD
  else if s = "text/turtle".data then some .TURTLE
  else if s = "model/iges".data then some .IGES
  else if s = "igs".data then some .IGS
  else if s = "text/csv".data then some .CSV
  else if s = "text/plain".data then some .TXT
  else if s = "application/rdf+xml".data then some .XML
  else if s = "application/xml".data then some .XML2
  else if s = "application/x-hdf5".data then some .HDF5
  else none

/-- `core.MediaType.parse`. -/
def MediaType.parse (media_type : Option (List Char)) : Option MediaType :=
  MediaType.ofValue (stripMediaTypeUri (pyStrOpt media_type))

/-- The media-type row filter of `core._download_metadata_datasets`:
`if media_type is not None and media_type not in allowed_media_types: skip`.
The allow-list may contain Python `None` (its default is `[None]`), hence
`Option MediaType` elements. -/
def skip_row (allowed_media_types : List (Option MediaType))
    (mediaType : Option (List Char)) : Bool :=
  match MediaType.parse mediaType with
  | none => false
  | some m => decide (some m ∉ allowed_media_types)

end Core

namespace Dbinit

/-- `dbinit.MediaType`: the three-member enum. -/
inductive MediaType where
  | JSON_LD
  | TURTLE
  | IGES
deriving DecidableEq

/-- Enum lookup `MediaType(value)`, `None` on `ValueError`. -/
def MediaType.ofValue (s : List Char) : Option MediaType :=
  if s = "application/ld+json".data then some .JSON_LD
  else if s = "text/turtle".data then some .TURTLE
  else if s = "model/iges".data then some .IGES
  else none

/-- `dbinit._parse_media_type`. -/
def parse_media_type (media_type : Option (List Char)) : Option MediaType :=
  MediaType.ofValue (stripMediaTypeUri (pyStrOpt media_type))

/-! ## `dbinit.download_metadata_datasets`

The SPARQL result is an input: a list of binding rows, each with the
`?identifier` binding (always present in the query) and the optional
`?downloadURL`, `?checksumValue`, `?checksumAlgorithm`, `?publisherName`
and `?mediaType` bindings.  The Zenodo file-listing network call made by
`get_download_urls_of_metadata_distributions_of_zenodo_record` is an input
oracle from the record identifier to the distribution list.  The file system
is an input predicate `fs` saying which paths exist before the call. -/

/-- `dbinit.DistributionMetadata`. -/
structure DistributionMetadata where
  download_url : List Char
  size : Option (List Char) := none
  checksum : Option (List Char) := none
  checksum_algorithm : Option (List Char) := none
deriving DecidableEq

/-- One SPARQL result row (`res.bindings` element). -/
structure BindingRow where
  identifier : List Char
  downloadURL : Option (List Char) := none
  checksumValue : Option (List Char) := none
  checksumAlgorithm : Option (List Char) := none
  publisherName : Option (List Char) := none
  mediaType : Option (List Char) := none

/-- Distribution resolution for one non-skipped row: the Zenodo branch when
there is no `downloadURL` but a publisher, the direct branch otherwise.  A
row with neither `downloadURL` nor `publisherName` reaches
`r[rdflib.Variable("downloadURL")]` and raises `KeyError` (`none`).  In the
direct branch, a missing checksum value or algorithm degrades both to
`None`. -/
def row_distributions (zenodo : List Char → List DistributionMetadata)
    (r : BindingRow) : Option (List DistributionMetadata) :=
  match r.downloadURL with
  | none =>
    match r.publisherName with
    | some _ => some (zenodo r.identifier)
    | none => none
  | some u =>
    match r.checksumValue, r.checksumAlgorithm with
    | some v, some a => some [{ download_url := u, checksum := some v, checksum_algorithm := some a }]
    | _, _ => some [{ download_url := u }]

/-- One line of the four parallel lists built by the resolution loop:
`download_urls[i]`, `target_filenames[i]`, `checksums[i]`,
`download_flags[i]`. -/
structure Entry where
  url : List Char
  target : List Char
  checksum : Option (List Char)
  checksum_algorithm : Option (List Char)
  flag : Bool
deriving DecidableEq

/-- Target-path computation and flag decision for one distribution, given
the entries accumulated so far in this run: a duplicate target is skipped, a
pre-existing file is skipped unless `exist_ok`, otherwise the download is
flagged. -/
def mk_entry (download_dir : List Char) (exist_ok : Bool) (fs : List Char → Bool)
    (acc : List Entry) (d : DistributionMetadata) : Entry :=
  let target := target_path download_dir d.download_url
  let flag :=
    if acc.any (fun e => decide (e.target = target)) then false
    else if fs target && !exist_ok then false
    else true
  ⟨d.download_url, target, d.checksum, d.checksum_algorithm, flag⟩

/-- The resolution loop of `download_metadata_datasets`: iterate over the
rows, skip rows whose parsed media type is not in `allowed_media_types`,
resolve each remaining row to distributions, and append one `Entry` per
distribution (threading the accumulator through the duplicate check). -/
def resolve_rows (zenodo : List Char → List DistributionMetadata)
    (allowed : List (Option MediaType)) (download_dir : List Char)
    (exist_ok : Bool) (fs : List Char → Bool) :
    List BindingRow → List Entry → Except Unit (List Entry)
  | [], acc => .ok acc
  | r :: rs, acc =>
    if parse_media_type r.mediaType ∉ allowed then
      resolve_rows zenodo allowed download_dir exist_ok fs rs acc
    else
      match row_distributions zenodo r with
      | none => .error ()
      | some ds =>
        resolve_rows zenodo allowed download_dir exist_ok fs rs
          (ds.foldl (fun a d => a ++ [mk_entry download_dir exist_ok fs a d]) acc)

/-- The resolved distributions of a run, in catalog traversal order (the
same filter and resolution as `resolve_rows`, without paths and flags). -/
def resolved_distributions (zenodo : List Char → List DistributionMetadata)
    (allowed : List (Option MediaType)) :
    List BindingRow → Except Unit (List DistributionMetadata)
  | [] => .ok []
  | r :: rs =>
    if parse_media_type r.mediaType ∉ allowed then
      resolved_distributions zenodo allowed rs
    else
      match row_distributions zenodo r with
      | none => .error ()
      | some ds => (resolved_distributions zenodo allowed rs).map (fun rest => ds ++ rest)

/-- The task handed to `download_file` / `download_multiple_files` for an
entry. -/
def entry_task (e : Entry) : DlTask := ⟨e.url, e.target, e.checksum, e.checksum_algorithm⟩

/-- Observable behaviour of the sequential (`n_threads == 1`) download loop. -/
structure SeqOut where
  err : Option DlError
  downloaded : List DlTask
  requests : List (List Char)
  written : List (List Char × List Nat)

/-- The sequential download loop: only flagged entries are attempted, the
on-disk existence re-check is evaluated against the current file system
(earlier downloads of this loop included), and the first exception from
`download_file` propagates, aborting the remaining iterations.  The
successful paths collected in `return_filenames` are dropped. -/
def seq_phase (hashlib : HashRegistry) (resp : List Char → Response) (exist_ok : Bool) :
    List Entry → (List Char → Bool) → SeqOut
  | [], _ => ⟨none, [], [], []⟩
  | e :: es, fsNow =>
    if e.flag then
      if fsNow e.target && !exist_ok then seq_phase hashlib resp exist_ok es fsNow
      else
        let o := download_file hashlib e.url e.target e.checksum e.checksum_algorithm (resp e.url)
        match o.result with
        | .error err => ⟨some err, [entry_task e], o.requests, o.written⟩
        | .ok _ =>
          let rest := seq_phase hashlib resp exist_ok es
            (fun p => fsNow p || o.written.any (fun w => decide (w.1 = p)))
          ⟨rest.err, entry_task e :: rest.downloaded,
           o.requests ++ rest.requests, o.written ++ rest.written⟩
    else seq_phase hashlib resp exist_ok es fsNow

/-- Observable behaviour of one `download_metadata_datasets` call:
the returned list (or the propagated exception), the tasks handed to
`download_multiple_files`, the tasks whose `download_file` ran, and the
network/file effects. -/
structure PipelineOut where
  returned : Except Unit (List (List Char))
  submitted : List DlTask
  downloaded : List DlTask
  requests : List (List Char)
  written : List (List Char × List Nat)

/-- `dbinit.download_metadata_datasets`: resolve the rows, then either run
the sequential loop (`n_threads == 1`) or hand the flagged entries to
`download_multiple_files`, whose return value is ignored; finally return
`target_filenames`. -/
def download_metadata_datasets (hashlib : HashRegistry)
    (zenodo : List Char → List DistributionMetadata) (resp : List Char → Response)
    (rows : List BindingRow) (allowed : List (Option MediaType))
    (download_dir : List Char) (n_threads : Nat) (exist_ok : Bool)
    (fs : List Char → Bool) : PipelineOut :=
  match resolve_rows zenodo allowed download_dir exist_ok fs rows [] with
  | .error _ => ⟨.error (), [], [], [], []⟩
  | .ok entries =>
    if n_threads = 1 then
      let s := seq_phase hashlib resp exist_ok entries fs
      match s.err with
      | some _ => ⟨.error (), [], s.downloaded, s.requests, s.written⟩
      | none => ⟨.ok (entries.map (fun e => e.target)), [], s.downloaded, s.requests, s.written⟩
    else
      let tasks := (entries.filter (fun e => e.flag)).map entry_task
      let s := download_multiple_files hashlib tasks (tasks.map (fun t => resp t.url)) n_threads
      ⟨.ok (entries.map (fun e => e.target)), tasks, tasks, s.requests, s.written⟩

end Dbinit

/-- The `hashlib` registry instance used for concrete runs: `sha256` is the
fully modelled digest; other algorithm names are treated as unregistered. -/
def pythonHashlib : HashRegistry := fun name =>
  if name = "sha256".data then some (fun bs => sha256Hex bs) else none

/-- All eight words of a compressed state are 32-bit bounded. -/
def Hash8.Bounded (s : Hash8) : Prop :=
  s.a < 2 ^ 32 ∧ s.b < 2 ^ 32 ∧ s.c < 2 ^ 32 ∧ s.d < 2 ^ 32 ∧
  s.e < 2 ^ 32 ∧ s.f < 2 ^ 32 ∧ s.g < 2 ^ 32 ∧ s.h < 2 ^ 32

/-- The two-task batch used to exhibit sequential failure propagation: the
first task's URL answers HTTP 404, the second succeeds. -/
def twoTasks : List DlTask :=
  [⟨"u1".data, "t1".data, none, none⟩, ⟨"u2".data, "t2".data, none, none⟩]

/-- Responses for `twoTasks`. -/
def twoResps : List Response := [⟨404, []⟩, ⟨200, [[49]]⟩]

/-- All-successful two-task batch. -/
def okTasks : List DlTask :=
  [⟨"u1".data, "t1".data, none, none⟩, ⟨"u2".data, "t2".data, none, none⟩]

/-- Responses for `okTasks`: both succeed. -/
def okResps : List Response := [⟨200, [[48]]⟩, ⟨200, [[49]]⟩]

/-- The number of flagged entries with target path `t` in an entry list. -/
def countFlagged (t : List Char) (l : List Dbinit.Entry) : Nat :=
  l.countP (fun e => decide (e.target = t) && e.flag)

/-- Whether some entry of the list has target path `t`. -/
def presentTarget (t : List Char) (l : List Dbinit.Entry) : Bool :=
  l.any (fun e => decide (e.target = t))

/-- The deduplication invariant of the resolution loop: for every target
path, the number of flagged entries is one when the target is present and
not pre-existing (or overwriting is allowed), and zero otherwise. -/
def FlagInv (exist_ok : Bool) (fs : List Char → Bool) (l : List Dbinit.Entry) : Prop :=
  ∀ t, countFlagged t l =
    if presentTarget t l then (if fs t && !exist_ok then 0 else 1) else 0

/-- Two SPARQL result rows carrying the same direct `downloadURL`value. -/
def dupRows : List Dbinit.BindingRow :=
  [{ identifier := "id".data, downloadURL := some "http://x/a.ttl".data },
   { identifier := "id".data, downloadURL := some "http://x/a.ttl".data }]

/-- The duplicated URL of `dupRows`. -/
def dupUrl : List Char := "http://x/a.ttl".data

/-- Whether an `Except` value is a success. -/
def exceptIsOk : Except DlError (List Char) → Bool
  | .ok _ => true
  | .error _ => false

/-! ## Generic lemmas -/

theorem downloadLoop_aux (chunks : List (List Nat)) (acc : List Nat × List Nat)
    (h : acc.1 = acc.2) :
    (chunks.foldl (fun acc ch => if ch = [] then acc else (acc.1 ++ ch, acc.2 ++ ch)) acc).1 =
    (chunks.foldl (fun acc ch => if ch = [] then acc else (acc.1 ++ ch, acc.2 ++ ch)) acc).2 := by
  induction chunks generalizing acc with
  | nil => simpa using h
  | cons c cs ih =>
    simp only [List.foldl_cons]
    by_cases hc : c = []
    · simp only [hc, if_pos rfl]
      exact ih acc h
    · simp only [if_neg hc]
      exact ih _ (by simp [h])

/-- The bytes written by the streaming loop equal the bytes hashed by it. -/
theorem downloadLoop_written_eq_hashed (chunks : List (List Nat)) :
    (downloadLoop chunks).1 = (downloadLoop chunks).2 :=
  downloadLoop_aux chunks ([], []) rfl

/-! ## Claim C10 -/

/-- Claim C10: for every call of `download_file` in which `checksum` is not
`None` but `checksum_algorithm` is `None`, the function raises a `ValueError`
before issuing any HTTP request and before creating or modifying the target
file, so on this error the file system is unchanged. -/
theorem c10_checksum_without_algorithm (hashlib : HashRegistry)
    (url target cval : List Char) (resp : Response) :
    (download_file hashlib url target (some cval) none resp).result = .error .valueError ∧
    (download_file hashlib url target (some cval) none resp).requests = [] ∧
    (download_file hashlib url target (some cval) none resp).written = [] :=
  ⟨rfl, rfl, rfl⟩

/-! ## Claim C4 -/

/-- Claim C4: when a checksum is supplied, the digest is accumulated over the
same streamed chunks that are written (single pass) and compared after the
write completes; a final digest differing from the expected value makes the
call raise a checksum-mismatch error rather than return success, and the
written file is left in place at the target path with the full streamed
body. -/
theorem c4_checksum_mismatch (hashlib : HashRegistry)
    (url target cval alg algName : List Char) (digestHex : List Nat → List Char)
    (resp : Response)
    (hparse : parse_checksum_algorithm alg = .ok algName)
    (hreg : hashlib algName = some digestHex)
    (hstatus : resp.status < 400)
    (hmism : digestHex (downloadLoop resp.chunks).2 ≠ cval) :
    (downloadLoop resp.chunks).2 = (downloadLoop resp.chunks).1 ∧
    download_file hashlib url target (some cval) (some alg) resp =
      ⟨[url], [(target, (downloadLoop resp.chunks).1)], .error .checksumMismatch⟩ := by
  refine ⟨(downloadLoop_written_eq_hashed resp.chunks).symm, ?_⟩
  have hs : ¬ (400 ≤ resp.status ∧ resp.status < 600) := by omega
  simp only [download_file]
  rw [hparse]
  simp only [download_file_go, if_neg hs, hreg, if_neg hmism]

/-! ## Helper lemmas on successful downloads -/

theorem download_file_go_ok (hashlib : HashRegistry) (url target : List Char)
    (chk : Option (List Char × List Char)) (resp : Response) (p : List Char)
    (h : (download_file_go hashlib url target chk resp).result = .ok p) :
    p = target ∧ (download_file_go hashlib url target chk resp).written =
      [(target, (downloadLoop resp.chunks).1)] := by
  by_cases hs : 400 ≤ resp.status ∧ resp.status < 600
  · unfold download_file_go at h
    rw [if_pos hs] at h
    exact absurd h (by simp)
  · cases chk with
    | none =>
      unfold download_file_go at h ⊢
      rw [if_neg hs] at h ⊢
      exact ⟨by injection h with h; exact h.symm, rfl⟩
    | some pr =>
      obtain ⟨cval, algName⟩ := pr
      unfold download_file_go at h ⊢
      rw [if_neg hs] at h ⊢
      dsimp only at h ⊢
      cases hh : hashlib algName with
      | none => rw [hh] at h; exact absurd h (by simp)
      | some digestHex =>
        rw [hh] at h
        dsimp only at h
        by_cases hd : digestHex (downloadLoop resp.chunks).2 = cval
        · rw [if_pos hd] at h
          refine ⟨by injection h with h2; exact h2.symm, ?_⟩
          dsimp only
          rw [if_pos hd]
        · rw [if_neg hd] at h
          exact absurd h (by simp)

theorem download_file_ok (hashlib : HashRegistry) (url target : List Char)
    (c a : Option (List Char)) (resp : Response) (p : List Char)
    (h : (download_file hashlib url target c a resp).result = .ok p) :
    p = target ∧ (download_file hashlib url target c a resp).written =
      [(target, (downloadLoop resp.chunks).1)] := by
  cases c with
  | none => exact download_file_go_ok hashlib url target none resp p h
  | some cval =>
    cases a with
    | none => exact absurd h (by simp [download_file])
    | some alg =>
      cases hp : parse_checksum_algorithm alg with
      | error e =>
        simp only [download_file] at h ⊢
        rw [hp] at h
        exact absurd h (by simp)
      | ok algName =>
        simp only [download_file] at h ⊢
        rw [hp] at h ⊢
        exact download_file_go_ok hashlib url target (some (cval, algName)) resp p h

theorem task_outcome_ok (hashlib : HashRegistry) (tr : DlTask × Response) (p : List Char)
    (h : (task_outcome hashlib tr).result = .ok p) :
    p = tr.1.target ∧ (task_outcome hashlib tr).written =
      [(tr.1.target, (downloadLoop tr.2.chunks).1)] :=
  download_file_ok hashlib tr.1.url tr.1.target tr.1.checksum tr.1.checksum_algorithm tr.2 p h

/-- Under all-success, collecting the futures' results in submission order
yields exactly the target paths in submission order. -/
theorem filterMap_outcomes_all_ok (hashlib : HashRegistry) (l : List (DlTask × Response))
    (hall : ∀ tr ∈ l, exceptIsOk (task_outcome hashlib tr).result = true) :
    (l.map (task_outcome hashlib)).filterMap (fun o => o.result.toOption) =
      l.map (fun tr => tr.1.target) := by
  induction l with
  | nil => rfl
  | cons tr rest ih =>
    have h1 := hall tr (List.mem_cons_self _ _)
    obtain ⟨p, hp⟩ : ∃ p, (task_outcome hashlib tr).result = .ok p := by
      cases hres : (task_outcome hashlib tr).result with
      | error e => rw [hres] at h1; exact absurd h1 (by simp [exceptIsOk])
      | ok q => exact ⟨q, rfl⟩
    have hpt := (task_outcome_ok hashlib tr p hp).1
    have hto : (task_outcome hashlib tr).result.toOption = some p := by rw [hp]; rfl
    simp only [List.map_cons, List.filterMap_cons, hto]
    rw [ih (fun t ht => hall t (List.mem_cons_of_mem _ ht)), hpt]

/-- Under all-success, the worker pool writes exactly the target paths, in
submission order of the modelled effect log. -/
theorem parallel_written_all_ok (hashlib : HashRegistry) (l : List (DlTask × Response))
    (hall : ∀ tr ∈ l, exceptIsOk (task_outcome hashlib tr).result = true) :
    ((l.map (task_outcome hashlib)).flatMap (fun o => o.written)).map Prod.fst =
      l.map (fun tr => tr.1.target) := by
  induction l with
  | nil => rfl
  | cons tr rest ih =>
    have h1 := hall tr (List.mem_cons_self _ _)
    obtain ⟨p, hp⟩ : ∃ p, (task_outcome hashlib tr).result = .ok p := by
      cases hres : (task_outcome hashlib tr).result with
      | error e => rw [hres] at h1; exact absurd h1 (by simp [exceptIsOk])
      | ok q => exact ⟨q, rfl⟩
    have hw := (task_outcome_ok hashlib tr p hp).2
    simp only [List.map_cons, List.flatMap_cons, hw, List.map_append]
    rw [ih (fun t ht => hall t (List.mem_cons_of_mem _ ht))]
    rfl

/-- Under all-success, the sequential branch writes exactly the target
paths in submission order. -/
theorem seq_downloads_written_all_ok (hashlib : HashRegistry) (l : List (DlTask × Response))
    (hall : ∀ tr ∈ l, exceptIsOk (task_outcome hashlib tr).result = true) :
    (seq_downloads hashlib l).written.map Prod.fst = l.map (fun tr => tr.1.target) := by
  induction l with
  | nil => rfl
  | cons tr rest ih =>
    obtain ⟨t, r⟩ := tr
    have h1 := hall (t, r) (List.mem_cons_self _ _)
    obtain ⟨p, hp⟩ : ∃ p, (task_outcome hashlib (t, r)).result = .ok p := by
      cases hres : (task_outcome hashlib (t, r)).result with
      | error e => rw [hres] at h1; exact absurd h1 (by simp [exceptIsOk])
      | ok q => exact ⟨q, rfl⟩
    have hw := (task_outcome_ok hashlib (t, r) p hp).2
    unfold seq_downloads
    simp only []
    rw [show (download_file hashlib t.url t.target t.checksum t.checksum_algorithm r) =
          task_outcome hashlib (t, r) from rfl, hp]
    simp only [List.map_append, hw]
    rw [ih (fun q hq => hall q (List.mem_cons_of_mem _ hq))]
    rfl

/-! ## Claim C5 -/

/-- Counterexample to claim C5 as stated: with `max_workers = 1` the list
comprehension has no exception handling, so the first task's HTTP error
propagates out of `download_multiple_files` and the second task is never
even requested (its URL does not appear in the issued requests). -/
theorem c5_counterexample :
    (download_multiple_files pythonHashlib twoTasks twoResps 1).result = .error .httpError ∧
    (download_multiple_files pythonHashlib twoTasks twoResps 1).requests = ["u1".data] :=
  ⟨rfl, rfl⟩

/-- Claim C5 (amended): for every worker count other than 1, a single task's
failure is caught inside `download_multiple_files`: no exception propagates
out of the scheduler, and every sibling task's successful result is still
contained in the returned list.  (With `max_workers = 1` the failure
propagates and aborts the remaining tasks.) -/
theorem c5_parallel_failure_isolated (hashlib : HashRegistry) (tasks : List DlTask)
    (resps : List Response) (mw : Nat) (hmw : mw ≠ 1) :
    (∀ e, (download_multiple_files hashlib tasks resps mw).result ≠ Except.error e) ∧
    (∀ tr ∈ tasks.zip resps, ∀ p, (task_outcome hashlib tr).result = .ok p →
      p ∈ ((download_multiple_files hashlib tasks resps mw).result.toOption.getD [])) := by
  unfold download_multiple_files
  rw [if_neg hmw]
  constructor
  · intro e h
    exact absurd h (by simp)
  · intro tr htr p hp
    simp only [Except.toOption, Option.getD]
    exact List.mem_filterMap.2 ⟨task_outcome hashlib tr,
      List.mem_map_of_mem _ htr, by rw [hp]⟩

/-- Witness for C5 (amended): in the same two-task batch under
`max_workers = 4`, the surviving task's path is returned. -/
theorem c5_parallel_failure_isolated_witness :
    "t2".data ∈ ((download_multiple_files pythonHashlib twoTasks twoResps 4).result.toOption.getD []) :=
  (c5_parallel_failure_isolated pythonHashlib twoTasks twoResps 4 (by decide)).2
    (⟨"u2".data, "t2".data, none, none⟩, ⟨200, [[49]]⟩) (by decide) "t2".data rfl

/-! ## Claim C6 -/

/-- Counterexample to claim C6 as stated: in the same batch with the first
task failing, the returned outcome list has length 1 while two tasks were
submitted, so the i-th returned element cannot correspond to the i-th
submitted task. -/
theorem c6_counterexample :
    ((download_multiple_files pythonHashlib twoTasks twoResps 4).result.toOption.map
      List.length) = some 1 ∧ twoTasks.length = 2 :=
  ⟨rfl, rfl⟩

/-- Claim C6 (amended): with `max_workers > 1` the returned outcome list
collects the successful outcomes in submission order (failed tasks are
omitted, shifting later entries); in particular, when every submitted task
succeeds, the i-th element of the returned list is the target path of the
i-th submitted task. -/
theorem c6_submission_order_all_ok (hashlib : HashRegistry) (tasks : List DlTask)
    (resps : List Response) (mw : Nat) (hmw : mw ≠ 1)
    (hall : ∀ tr ∈ tasks.zip resps, exceptIsOk (task_outcome hashlib tr).result = true) :
    (download_multiple_files hashlib tasks resps mw).result =
      .ok ((tasks.zip resps).map (fun tr => tr.1.target)) := by
  unfold download_multiple_files
  rw [if_neg hmw]
  simp only []
  rw [filterMap_outcomes_all_ok hashlib _ hall]

/-- Witness for C6 (amended): both tasks succeed and the returned list is
their target paths in submission order. -/
theorem c6_submission_order_all_ok_witness :
    (download_multiple_files pythonHashlib okTasks okResps 4).result =
      .ok ((okTasks.zip okResps).map (fun tr => tr.1.target)) :=
  c6_submission_order_all_ok pythonHashlib okTasks okResps 4 (by decide) (by decide)

/-! ## Claim C8 -/

/-- Claim C8: for a batch in which every download succeeds, running
`download_multiple_files` with `max_workers = 1` and with `max_workers = 4`
materializes the same set of file paths on disk. -/
theorem c8_seq_parallel_same_paths (hashlib : HashRegistry) (tasks : List DlTask)
    (resps : List Response)
    (hall : ∀ tr ∈ tasks.zip resps, exceptIsOk (task_outcome hashlib tr).result = true)
    (p : List Char) :
    (p ∈ (download_multiple_files hashlib tasks resps 1).written.map Prod.fst ↔
     p ∈ (download_multiple_files hashlib tasks resps 4).written.map Prod.fst) := by
  have h1 : (download_multiple_files hashlib tasks resps 1).written.map Prod.fst =
      (tasks.zip resps).map (fun tr => tr.1.target) := by
    unfold download_multiple_files
    rw [if_pos rfl]
    exact seq_downloads_written_all_ok hashlib _ hall
  have h4 : (download_multiple_files hashlib tasks resps 4).written.map Prod.fst =
      (tasks.zip resps).map (fun tr => tr.1.target) := by
    unfold download_multiple_files
    rw [if_neg (by omega)]
    exact parallel_written_all_ok hashlib _ hall
  rw [h1, h4]

/-- Witness for C8: in the all-successful two-task batch, the first target
path is materialized under both worker counts. -/
theorem c8_seq_parallel_same_paths_witness :
    ("t1".data ∈ (download_multiple_files pythonHashlib okTasks okResps 1).written.map Prod.fst ↔
     "t1".data ∈ (download_multiple_files pythonHashlib okTasks okResps 4).written.map Prod.fst) :=
  c8_seq_parallel_same_paths pythonHashlib okTasks okResps (by decide) "t1".data

/-! ## Claim C7 -/

/-- Claim C7: in the media-type row filter of `_download_metadata_datasets`
(`core.py`), a distribution whose media type is absent or does not parse into
a known `MediaType` is permitted for download regardless of the
caller-supplied allow-list; only a recognized media type that is not in the
allow-list causes the row to be skipped. -/
theorem c7_unknown_media_type_allowed (allowed : List (Option Core.MediaType))
    (mt : Option (List Char)) :
    (Core.MediaType.parse mt = none → Core.skip_row allowed mt = false) ∧
    (∀ m, Core.MediaType.parse mt = some m →
      (Core.skip_row allowed mt = true ↔ some m ∉ allowed)) := by
  constructor
  · intro h
    unfold Core.skip_row
    rw [h]
  · intro m h
    unfold Core.skip_row
    rw [h]
    simp

/-- Witness for C7: an unrecognized media type string passes the filter even
though it is not in the allow-list. -/
theorem c7_unknown_media_type_allowed_witness :
    Core.skip_row [some Core.MediaType.JSON_LD] (some "application/unknown".data) = false :=
  (c7_unknown_media_type_allowed [some Core.MediaType.JSON_LD]
    (some "application/unknown".data)).1 (by rfl)

/-! ## Digest arithmetic lemmas (towards C1) -/

theorem valBE_lt (b : Nat) (ds : List Nat) (hb : 0 < b) (h : ∀ d ∈ ds, d < b) :
    valBE b ds < b ^ ds.length := by
  induction ds with
  | nil => simp [valBE]
  | cons d rest ih =>
    have hd : d < b := h d (List.mem_cons_self _ _)
    have hrest := ih (fun x hx => h x (List.mem_cons_of_mem _ hx))
    have hpow : 0 < b ^ rest.length := Nat.pow_pos hb
    calc d * b ^ rest.length + valBE b rest
        < d * b ^ rest.length + b ^ rest.length := by omega
      _ = (d + 1) * b ^ rest.length := by ring
      _ ≤ b * b ^ rest.length := Nat.mul_le_mul_right _ hd
      _ = b ^ (d :: rest).length := by rw [List.length_cons, pow_succ, Nat.mul_comm]

theorem w32_lt (n : Nat) : w32 n < 2 ^ 32 := Nat.mod_lt _ (by norm_num)

theorem processBlock_bounded (st : Hash8) (block : List Nat) :
    (processBlock st block).Bounded := by
  unfold processBlock Hash8.Bounded
  exact ⟨w32_lt _, w32_lt _, w32_lt _, w32_lt _, w32_lt _, w32_lt _, w32_lt _, w32_lt _⟩

theorem foldl_processBlock_bounded (blocks : List (List Nat)) (st : Hash8)
    (h : st.Bounded) : (blocks.foldl processBlock st).Bounded := by
  induction blocks generalizing st with
  | nil => exact h
  | cons b bs ih =>
    rw [List.foldl_cons]
    exact ih (processBlock st b) (processBlock_bounded st b)

theorem sha256H0_bounded : Hash8.Bounded sha256H0 := by
  unfold Hash8.Bounded sha256H0
  norm_num

/-- The SHA-256 digest value is below `2 ^ 256`. -/
theorem sha256Bytes_lt (msg : List Nat) : sha256Bytes msg < 2 ^ 256 := by
  unfold sha256Bytes
  have hb := foldl_processBlock_bounded (toBlocks (padMessage msg)) sha256H0 sha256H0_bounded
  obtain ⟨h1, h2, h3, h4, h5, h6, h7, h8⟩ := hb
  have := valBE_lt (2 ^ 32)
    [(List.foldl processBlock sha256H0 (toBlocks (padMessage msg))).a,
     (List.foldl processBlock sha256H0 (toBlocks (padMessage msg))).b,
     (List.foldl processBlock sha256H0 (toBlocks (padMessage msg))).c,
     (List.foldl processBlock sha256H0 (toBlocks (padMessage msg))).d,
     (List.foldl processBlock sha256H0 (toBlocks (padMessage msg))).e,
     (List.foldl processBlock sha256H0 (toBlocks (padMessage msg))).f,
     (List.foldl processBlock sha256H0 (toBlocks (padMessage msg))).g,
     (List.foldl processBlock sha256H0 (toBlocks (padMessage msg))).h]
    (by norm_num)
    (by
      intro d hd
      simp only [List.mem_cons, List.not_mem_nil, or_false] at hd
      rcases hd with h | h | h | h | h | h | h | h <;> subst h <;> assumption)
  calc valBE (2 ^ 32) _ < (2 ^ 32) ^ ([0, 0, 0, 0, 0, 0, 0, 0] : List Nat).length := by
        simpa using this
    _ = 2 ^ 256 := by norm_num

theorem hexDigitsBE_length (k n : Nat) : (hexDigitsBE k n).length = k := by
  induction k generalizing n with
  | zero => rfl
  | succ k ih => simp [hexDigitsBE, ih]

theorem hexDigitsBE_lt (k n : Nat) : ∀ d ∈ hexDigitsBE k n, d < 16 := by
  induction k generalizing n with
  | zero => intro d hd; simp [hexDigitsBE] at hd
  | succ k ih =>
    intro d hd
    simp only [hexDigitsBE, List.mem_cons] at hd
    rcases hd with h | h
    · subst h; exact Nat.mod_lt _ (by norm_num)
    · exact ih n d h

theorem valBE_hexDigitsBE (k n : Nat) : valBE 16 (hexDigitsBE k n) = n % 16 ^ k := by
  induction k generalizing n with
  | zero => simp [hexDigitsBE, valBE, Nat.mod_one]
  | succ k ih =>
    have : (16 : Nat) ^ (k + 1) = 16 ^ k * 16 := by rw [pow_succ]
    rw [this, Nat.mod_mul]
    simp only [hexDigitsBE, valBE, hexDigitsBE_length, ih]
    ring

theorem hexDigitsBE_inj (k m n : Nat) (hm : m < 16 ^ k) (hn : n < 16 ^ k)
    (h : hexDigitsBE k m = hexDigitsBE k n) : m = n := by
  have hv := congrArg (valBE 16) h
  rw [valBE_hexDigitsBE, valBE_hexDigitsBE, Nat.mod_eq_of_lt hm, Nat.mod_eq_of_lt hn] at hv
  exact hv

theorem hexChar_inj : ∀ d, d < 16 → ∀ e, e < 16 → hexChar d = hexChar e → d = e := by
  decide

theorem map_hexChar_inj (l1 l2 : List Nat) (h1 : ∀ d ∈ l1, d < 16) (h2 : ∀ d ∈ l2, d < 16)
    (h : l1.map hexChar = l2.map hexChar) : l1 = l2 := by
  induction l1 generalizing l2 with
  | nil => cases l2 with
    | nil => rfl
    | cons e es => simp at h
  | cons d ds ih =>
    cases l2 with
    | nil => simp at h
    | cons e es =>
      simp only [List.map_cons, List.cons.injEq] at h
      have hd := hexChar_inj d (h1 d (List.mem_cons_self _ _)) e (h2 e (List.mem_cons_self _ _)) h.1
      rw [hd, ih es (fun x hx => h1 x (List.mem_cons_of_mem _ hx))
        (fun x hx => h2 x (List.mem_cons_of_mem _ hx)) h.2]

theorem sha256Hex_length (msg : List Nat) : (sha256Hex msg).length = 64 := by
  unfold sha256Hex
  rw [List.length_map, hexDigitsBE_length]

theorem pow16_64 : (16 : Nat) ^ 64 = 2 ^ 256 := by norm_num

theorem sha256Hex_inj (m1 m2 : List Nat) (h : sha256Hex m1 = sha256Hex m2) :
    sha256Bytes m1 = sha256Bytes m2 := by
  unfold sha256Hex at h
  have hdig := map_hexChar_inj _ _ (hexDigitsBE_lt 64 _) (hexDigitsBE_lt 64 _) h
  exact hexDigitsBE_inj 64 _ _ (by rw [pow16_64]; exact sha256Bytes_lt m1)
    (by rw [pow16_64]; exact sha256Bytes_lt m2) hdig

/-! ## Claim C1 -/

theorem takeWhile_all {α : Type} (p : α → Bool) (l : List α) (h : ∀ a ∈ l, p a = true) :
    l.takeWhile p = l := List.takeWhile_eq_self_iff.2 h

theorem afterLastChar_not_mem (c : Char) (l : List Char) (h : c ∉ l) :
    afterLastChar c l = l := by
  unfold afterLastChar
  rw [takeWhile_all _ _ (by
    intro a ha
    have : a ∈ l := List.mem_reverse.1 ha
    simp only [decide_eq_true_eq]
    intro hac
    exact h (hac ▸ this)), List.reverse_reverse]

theorem lastIndexOf_not_mem (c : Char) (l : List Char) (h : c ∉ l) :
    lastIndexOf c l = none := by
  induction l with
  | nil => rfl
  | cons a as ih =>
    unfold lastIndexOf
    rw [ih (fun hm => h (List.mem_cons_of_mem _ hm))]
    simp only [if_neg (fun hac : a = c => h (hac ▸ List.mem_cons_self _ _))]

theorem pathSuffix_replicate_a (n : Nat) :
    pathSuffix (afterLastChar '/' (List.replicate n 'a')) = [] := by
  have hslash : '/' ∉ List.replicate n 'a' := by
    intro h; rcases List.mem_replicate.1 h with ⟨_, h2⟩; exact absurd h2 (by decide)
  have hdot : '.' ∉ List.replicate n 'a' := by
    intro h; rcases List.mem_replicate.1 h with ⟨_, h2⟩; exact absurd h2 (by decide)
  rw [afterLastChar_not_mem _ _ hslash]
  unfold pathSuffix
  rw [lastIndexOf_not_mem _ _ hdot]

/-- Counterexample to claim C1 as stated: the target-path map cannot be
injective on all URLs, because the path is determined by the 64-hex-digit
SHA-256 value (plus the suffix), so over the infinitely many suffix-free
URLs `"a" * n` two distinct URLs must share a path. -/
theorem c1_counterexample :
    ¬ ∀ u v : List Char, u ≠ v →
      target_path "downloads".data u ≠ target_path "downloads".data v := by
  intro hinj
  obtain ⟨m, n, hmn, heq⟩ := Finite.exists_ne_map_eq_of_infinite
    (fun k : Nat =>
      (⟨sha256Bytes (utf8 (List.replicate k 'a')), sha256Bytes_lt _⟩ : Fin (2 ^ 256)))
  have hurl : List.replicate m 'a' ≠ List.replicate n 'a' := by
    intro h
    apply hmn
    have := congrArg List.length h
    simpa using this
  apply hinj _ _ hurl
  have hdig : sha256Bytes (utf8 (List.replicate m 'a')) =
      sha256Bytes (utf8 (List.replicate n 'a')) := congrArg Fin.val heq
  unfold target_path target_name url_hash sha256Hex
  rw [hdig, pathSuffix_replicate_a m, pathSuffix_replicate_a n]

/-- Claim C1 (amended): the target path is a pure deterministic function of
the URL (equal URLs give identical paths), and two distinct URLs yield
distinct paths whenever their SHA-256 digests differ — unconditional
distinctness is impossible because distinct URLs can collide on the
digest. -/
theorem c1_amended (dir u v : List Char) :
    (u = v → target_path dir u = target_path dir v) ∧
    (sha256Bytes (utf8 u) ≠ sha256Bytes (utf8 v) →
      target_path dir u ≠ target_path dir v) := by
  constructor
  · intro h; rw [h]
  · intro hdig hpath
    apply hdig
    unfold target_path at hpath
    have h1 := List.append_cancel_left hpath
    have h2 : target_name u = target_name v := by injection h1
    unfold target_name at h2
    have h3 := (List.append_inj h2 (by
      unfold url_hash
      rw [sha256Hex_length, sha256Hex_length])).1
    exact sha256Hex_inj _ _ h3

/-- Witness for C1 (amended): two one-character URLs with distinct digests
map to distinct paths. -/
theorem c1_amended_witness :
    sha256Bytes (utf8 "a".data) ≠ sha256Bytes (utf8 "b".data) ∧
    target_path "downloads".data "a".data ≠ target_path "downloads".data "b".data := by
  have h : sha256Bytes (utf8 "a".data) ≠ sha256Bytes (utf8 "b".data) := by decide
  exact ⟨h, (c1_amended "downloads".data "a".data "b".data).2 h⟩

/-- Witness for C4: a one-chunk body whose SHA-256 digest differs from the
expected value `"00"`. -/
theorem c4_checksum_mismatch_witness :
    (downloadLoop [[97]]).2 = (downloadLoop [[97]]).1 ∧
    download_file pythonHashlib "u".data "t".data (some "00".data) (some "sha256".data)
        ⟨200, [[97]]⟩ =
      ⟨["u".data], [("t".data, (downloadLoop [[97]]).1)], .error .checksumMismatch⟩ :=
  c4_checksum_mismatch pythonHashlib "u".data "t".data "00".data "sha256".data "sha256".data
    (fun bs => sha256Hex bs) ⟨200, [[97]]⟩ rfl rfl (by decide) (by decide)

/-! ## Resolution-loop lemmas (towards C2, C3, C9) -/

theorem mk_entry_target (dir : List Char) (exist_ok : Bool) (fs : List Char → Bool)
    (acc : List Dbinit.Entry) (d : Dbinit.DistributionMetadata) :
    (Dbinit.mk_entry dir exist_ok fs acc d).target = target_path dir d.download_url := rfl

theorem mk_entry_url (dir : List Char) (exist_ok : Bool) (fs : List Char → Bool)
    (acc : List Dbinit.Entry) (d : Dbinit.DistributionMetadata) :
    (Dbinit.mk_entry dir exist_ok fs acc d).url = d.download_url := rfl

theorem mk_entry_flag_dup (dir : List Char) (exist_ok : Bool) (fs : List Char → Bool)
    (acc : List Dbinit.Entry) (d : Dbinit.DistributionMetadata)
    (h : presentTarget (target_path dir d.download_url) acc = true) :
    (Dbinit.mk_entry dir exist_ok fs acc d).flag = false := by
  unfold presentTarget at h
  show (if acc.any (fun e => decide (e.target = target_path dir d.download_url)) then false
        else if fs (target_path dir d.download_url) && !exist_ok then false else true) = false
  simp [h]

theorem mk_entry_flag_first (dir : List Char) (exist_ok : Bool) (fs : List Char → Bool)
    (acc : List Dbinit.Entry) (d : Dbinit.DistributionMetadata)
    (h : presentTarget (target_path dir d.download_url) acc = false) :
    (Dbinit.mk_entry dir exist_ok fs acc d).flag =
      !(fs (target_path dir d.download_url) && !exist_ok) := by
  unfold presentTarget at h
  show (if acc.any (fun e => decide (e.target = target_path dir d.download_url)) then false
        else if fs (target_path dir d.download_url) && !exist_ok then false else true) =
      !(fs (target_path dir d.download_url) && !exist_ok)
  rw [h]
  cases hb : fs (target_path dir d.download_url) && !exist_ok <;> simp [hb]

theorem flagInv_nil (exist_ok : Bool) (fs : List Char → Bool) : FlagInv exist_ok fs [] := by
  intro t
  simp [countFlagged, presentTarget]

theorem flagInv_step (dir : List Char) (exist_ok : Bool) (fs : List Char → Bool)
    (acc : List Dbinit.Entry) (d : Dbinit.DistributionMetadata)
    (h : FlagInv exist_ok fs acc) :
    FlagInv exist_ok fs (acc ++ [Dbinit.mk_entry dir exist_ok fs acc d]) := by
  intro t
  have hcnt : countFlagged t (acc ++ [Dbinit.mk_entry dir exist_ok fs acc d]) =
      countFlagged t acc +
        (if (decide ((Dbinit.mk_entry dir exist_ok fs acc d).target = t) &&
              (Dbinit.mk_entry dir exist_ok fs acc d).flag) = true then 1 else 0) := by
    unfold countFlagged
    rw [List.countP_append, List.countP_cons, List.countP_nil]
    omega
  have hpres : presentTarget t (acc ++ [Dbinit.mk_entry dir exist_ok fs acc d]) =
      (presentTarget t acc || decide ((Dbinit.mk_entry dir exist_ok fs acc d).target = t)) := by
    unfold presentTarget
    rw [List.any_append]
    simp
  rw [hcnt, hpres, h t]
  by_cases hte : (Dbinit.mk_entry dir exist_ok fs acc d).target = t
  · rw [mk_entry_target] at hte
    subst hte
    cases hp : presentTarget (target_path dir d.download_url) acc with
    | true =>
      rw [mk_entry_flag_dup dir exist_ok fs acc d hp]
      simp [mk_entry_target]
    | false =>
      rw [mk_entry_flag_first dir exist_ok fs acc d hp]
      cases hb : fs (target_path dir d.download_url) && !exist_ok <;>
        simp [mk_entry_target, hb]
  · have hd : decide ((Dbinit.mk_entry dir exist_ok fs acc d).target = t) = false := by
      simp [hte]
    rw [hd]
    simp

theorem flagInv_foldl (dir : List Char) (exist_ok : Bool) (fs : List Char → Bool)
    (ds : List Dbinit.DistributionMetadata) :
    ∀ acc, FlagInv exist_ok fs acc →
      FlagInv exist_ok fs
        (ds.foldl (fun a d => a ++ [Dbinit.mk_entry dir exist_ok fs a d]) acc) := by
  induction ds with
  | nil => exact fun acc h => h
  | cons d rest ih =>
    intro acc h
    rw [List.foldl_cons]
    exact ih _ (flagInv_step dir exist_ok fs acc d h)

theorem resolve_rows_flagInv (zenodo : List Char → List Dbinit.DistributionMetadata)
    (allowed : List (Option Dbinit.MediaType)) (dir : List Char) (exist_ok : Bool)
    (fs : List Char → Bool) :
    ∀ rows acc es, FlagInv exist_ok fs acc →
      Dbinit.resolve_rows zenodo allowed dir exist_ok fs rows acc = .ok es →
      FlagInv exist_ok fs es := by
  intro rows
  induction rows with
  | nil =>
    intro acc es hacc h
    unfold Dbinit.resolve_rows at h
    injection h with h
    rwa [← h]
  | cons r rs ih =>
    intro acc es hacc h
    unfold Dbinit.resolve_rows at h
    by_cases hskip : Dbinit.parse_media_type r.mediaType ∉ allowed
    · rw [if_pos hskip] at h
      exact ih acc es hacc h
    · rw [if_neg hskip] at h
      cases hrd : Dbinit.row_distributions zenodo r with
      | none => rw [hrd] at h; exact absurd h (by simp)
      | some ds =>
        rw [hrd] at h
        exact ih _ es (flagInv_foldl dir exist_ok fs ds acc hacc) h

theorem flagInv_count_le_one (exist_ok : Bool) (fs : List Char → Bool)
    (es : List Dbinit.Entry) (h : FlagInv exist_ok fs es) (t : List Char) :
    countFlagged t es ≤ 1 := by
  rw [h t]
  split_ifs <;> omega

theorem flagInv_count_eq_one (exist_ok : Bool) (fs : List Char → Bool)
    (es : List Dbinit.Entry) (h : FlagInv exist_ok fs es) (t : List Char)
    (hp : presentTarget t es = true) (hfree : fs t = false ∨ exist_ok = true) :
    countFlagged t es = 1 := by
  have hb : (fs t && !exist_ok) = false := by
    rcases hfree with h1 | h1
    · rw [h1]; rfl
    · rw [h1]; cases fs t <;> rfl
  rw [h t, hp, hb]
  rfl

theorem flagInv_count_eq_zero (exist_ok : Bool) (fs : List Char → Bool)
    (es : List Dbinit.Entry) (h : FlagInv exist_ok fs es) (t : List Char)
    (hfs : fs t = true) (hok : exist_ok = false) :
    countFlagged t es = 0 := by
  have hb : (fs t && !exist_ok) = true := by rw [hfs, hok]; rfl
  rw [h t, hb]
  split <;> rfl

theorem submitted_countP (es : List Dbinit.Entry) (t : List Char) :
    (((es.filter (fun e => e.flag)).map Dbinit.entry_task).countP
        (fun tk => decide (tk.target = t))) = countFlagged t es := by
  rw [List.countP_map, List.countP_filter]
  unfold countFlagged
  congr 1

theorem not_flagged_of_count_zero (es : List Dbinit.Entry) (t : List Char)
    (h : countFlagged t es = 0) :
    ∀ e ∈ es, e.target = t → e.flag = false := by
  intro e he ht
  have := List.countP_eq_zero.1 h e he
  simpa [ht] using this

theorem presentTarget_of_mem (es : List Dbinit.Entry) (t : List Char)
    (h : t ∈ es.map (fun e => e.target)) : presentTarget t es = true := by
  unfold presentTarget
  rcases List.mem_map.1 h with ⟨e, he, het⟩
  exact List.any_eq_true.2 ⟨e, he, by simp [het]⟩

theorem seq_phase_downloaded (hashlib : HashRegistry) (resp : List Char → Response)
    (exist_ok : Bool) :
    ∀ (es : List Dbinit.Entry) (fsNow : List Char → Bool),
      ∀ tk ∈ (Dbinit.seq_phase hashlib resp exist_ok es fsNow).downloaded,
        ∃ e ∈ es, tk = Dbinit.entry_task e ∧ e.flag = true := by
  intro es
  induction es with
  | nil => intro fsNow tk htk; exact absurd htk (by simp [Dbinit.seq_phase])
  | cons e rest ih =>
    intro fsNow tk htk
    unfold Dbinit.seq_phase at htk
    by_cases hf : e.flag
    · rw [if_pos hf] at htk
      by_cases hex : fsNow e.target && !exist_ok
      · rw [if_pos hex] at htk
        rcases ih fsNow tk htk with ⟨e', he', rest'⟩
        exact ⟨e', List.mem_cons_of_mem _ he', rest'⟩
      · rw [if_neg hex] at htk
        dsimp only at htk
        cases hres : (download_file hashlib e.url e.target e.checksum e.checksum_algorithm
            (resp e.url)).result with
        | error err =>
          rw [hres] at htk
          simp only [List.mem_singleton] at htk
          exact ⟨e, List.mem_cons_self _ _, htk, hf⟩
        | ok p =>
          rw [hres] at htk
          simp only [List.mem_cons] at htk
          rcases htk with htk | htk
          · exact ⟨e, List.mem_cons_self _ _, htk, hf⟩
          · rcases ih _ tk htk with ⟨e', he', rest'⟩
            exact ⟨e', List.mem_cons_of_mem _ he', rest'⟩
    · rw [if_neg hf] at htk
      rcases ih fsNow tk htk with ⟨e', he', rest'⟩
      exact ⟨e', List.mem_cons_of_mem _ he', rest'⟩

theorem entry_task_target (e : Dbinit.Entry) : (Dbinit.entry_task e).target = e.target := rfl

theorem entry_task_url (e : Dbinit.Entry) : (Dbinit.entry_task e).url = e.url := rfl

theorem foldl_mk_entry_target (dir : List Char) (exist_ok : Bool) (fs : List Char → Bool)
    (ds : List Dbinit.DistributionMetadata) :
    ∀ acc, (∀ e ∈ acc, e.target = target_path dir e.url) →
      ∀ e ∈ ds.foldl (fun a d => a ++ [Dbinit.mk_entry dir exist_ok fs a d]) acc,
        e.target = target_path dir e.url := by
  induction ds with
  | nil => exact fun acc h => h
  | cons d rest ih =>
    intro acc hacc
    rw [List.foldl_cons]
    refine ih _ ?_
    intro e he
    rcases List.mem_append.1 he with he | he
    · exact hacc e he
    · rw [List.mem_singleton.1 he]
      rfl

theorem resolve_rows_target (zenodo : List Char → List Dbinit.DistributionMetadata)
    (allowed : List (Option Dbinit.MediaType)) (dir : List Char) (exist_ok : Bool)
    (fs : List Char → Bool) :
    ∀ rows (acc es : List Dbinit.Entry), (∀ e ∈ acc, e.target = target_path dir e.url) →
      Dbinit.resolve_rows zenodo allowed dir exist_ok fs rows acc = .ok es →
      ∀ e ∈ es, e.target = target_path dir e.url := by
  intro rows
  induction rows with
  | nil =>
    intro acc es hacc h
    unfold Dbinit.resolve_rows at h
    injection h with h
    rwa [← h]
  | cons r rs ih =>
    intro acc es hacc h
    unfold Dbinit.resolve_rows at h
    by_cases hskip : Dbinit.parse_media_type r.mediaType ∉ allowed
    · rw [if_pos hskip] at h
      exact ih acc es hacc h
    · rw [if_neg hskip] at h
      cases hrd : Dbinit.row_distributions zenodo r with
      | none => rw [hrd] at h; exact absurd h (by simp)
      | some dls =>
        rw [hrd] at h
        exact ih _ es (foldl_mk_entry_target dir exist_ok fs dls acc hacc) h


/-! ## Claim C3 -/

/-- Claim C3: with `exist_ok = False`, a resolved target whose computed
target path already exists on disk is never downloaded (no `download_file`
call is made for a task with that target, in either branch), and the
pre-existing path is still included in the list the call returns. -/
theorem c3_skip_if_exists (hashlib : HashRegistry)
    (zenodo : List Char → List Dbinit.DistributionMetadata) (resp : List Char → Response)
    (rows : List Dbinit.BindingRow) (allowed : List (Option Dbinit.MediaType))
    (dir : List Char) (n : Nat) (fs : List Char → Bool)
    (es : List Dbinit.Entry) (t : List Char)
    (hres : Dbinit.resolve_rows zenodo allowed dir false fs rows [] = .ok es)
    (ht : t ∈ es.map (fun e => e.target)) (hfs : fs t = true) :
    (∀ tk ∈ (Dbinit.download_metadata_datasets hashlib zenodo resp rows allowed
        dir n false fs).downloaded, tk.target ≠ t) ∧
    (∀ l, (Dbinit.download_metadata_datasets hashlib zenodo resp rows allowed
        dir n false fs).returned = .ok l → t ∈ l) := by
  have hinv := resolve_rows_flagInv zenodo allowed dir false fs rows [] es (flagInv_nil false fs) hres
  have hzero := flagInv_count_eq_zero false fs es hinv t hfs rfl
  have hnof := not_flagged_of_count_zero es t hzero
  unfold Dbinit.download_metadata_datasets
  rw [hres]
  dsimp only
  by_cases hn : n = 1
  · rw [if_pos hn]
    cases hserr : (Dbinit.seq_phase hashlib resp false es fs).err with
    | some err =>
      dsimp only
      constructor
      · intro tk htk hteq
        rcases seq_phase_downloaded hashlib resp false es fs tk htk with ⟨e, he, hetk, hfl⟩
        have : e.target = t := by rw [← hteq, hetk]; rfl
        exact absurd hfl (by rw [hnof e he this]; exact Bool.false_ne_true)
      · intro l hl
        exact absurd hl (by simp)
    | none =>
      dsimp only
      constructor
      · intro tk htk hteq
        rcases seq_phase_downloaded hashlib resp false es fs tk htk with ⟨e, he, hetk, hfl⟩
        have : e.target = t := by rw [← hteq, hetk]; rfl
        exact absurd hfl (by rw [hnof e he this]; exact Bool.false_ne_true)
      · intro l hl
        injection hl with hl
        rw [← hl]
        exact ht
  · rw [if_neg hn]
    constructor
    · intro tk htk hteq
      rcases List.mem_map.1 htk with ⟨e, hef, hetk⟩
      rcases List.mem_filter.1 hef with ⟨he, hfl⟩
      have : e.target = t := by rw [← hteq, ← hetk]; rfl
      exact absurd hfl (by rw [hnof e he this]; exact Bool.false_ne_true)
    · intro l hl
      injection hl with hl
      rw [← hl]
      exact ht

/-- Witness for C3: with every path pre-existing, the duplicated-URL batch
downloads nothing and still returns the pre-existing target path. -/
theorem c3_skip_if_exists_witness :
    (∀ tk ∈ (Dbinit.download_metadata_datasets pythonHashlib (fun _ => [])
        (fun _ => Response.mk 200 []) dupRows [none] "dl".data 4 false
        (fun _ => true)).downloaded, tk.target ≠ target_path "dl".data dupUrl) ∧
    (∀ l, (Dbinit.download_metadata_datasets pythonHashlib (fun _ => [])
        (fun _ => Response.mk 200 []) dupRows [none] "dl".data 4 false
        (fun _ => true)).returned = .ok l → target_path "dl".data dupUrl ∈ l) :=
  c3_skip_if_exists pythonHashlib (fun _ => []) (fun _ => Response.mk 200 []) dupRows [none]
    "dl".data 4 (fun _ => true)
    ((Dbinit.resolve_rows (fun _ => []) [none] "dl".data false (fun _ => true)
      dupRows []).toOption.getD [])
    (target_path "dl".data dupUrl) rfl (by decide) rfl

/-! ## Claim C2 -/

/-- Counterexample to claim C2 as stated: both rows of `dupRows` resolve to
the same `downloadURL`, but with the computed target path already existing on
disk (`fs` constantly true) and `exist_ok = False`, the scheduler receives
zero tasks for that URL, not exactly one. -/
theorem c2_counterexample :
    (Dbinit.resolve_rows (fun _ => []) [none] "dl".data false (fun _ => true) dupRows []).map
        (fun es => es.map (fun e => e.url)) = .ok [dupUrl, dupUrl] ∧
    ((Dbinit.download_metadata_datasets pythonHashlib (fun _ => [])
        (fun _ => Response.mk 200 []) dupRows [none] "dl".data 4 false
        (fun _ => true)).submitted.countP (fun tk => decide (tk.url = dupUrl))) = 0 :=
  ⟨rfl, rfl⟩

/-- Claim C2 (amended): for every resolved URL `u` (in particular when two
dataset entries resolve to distributions with the same `downloadURL`), the
multi-threaded branch hands `download_multiple_files` at most one download
task for that URL within a single run — the duplicate is skipped as a no-op,
not an error — and exactly one such task when the computed target path does
not already exist on disk (or `exist_ok` is set) and no distinct URL of the
run shares that target path (a digest collision). -/
theorem c2_dedup_at_most_one (hashlib : HashRegistry)
    (zenodo : List Char → List Dbinit.DistributionMetadata) (resp : List Char → Response)
    (rows : List Dbinit.BindingRow) (allowed : List (Option Dbinit.MediaType))
    (dir : List Char) (n : Nat) (exist_ok : Bool) (fs : List Char → Bool)
    (es : List Dbinit.Entry) (u : List Char)
    (hn : n ≠ 1)
    (hres : Dbinit.resolve_rows zenodo allowed dir exist_ok fs rows [] = .ok es)
    (hu : u ∈ es.map (fun e => e.url))
    (hnc : ∀ e ∈ es, e.target = target_path dir u → e.url = u) :
    (((Dbinit.download_metadata_datasets hashlib zenodo resp rows allowed dir n exist_ok
        fs).submitted.countP (fun tk => decide (tk.url = u))) ≤ 1) ∧
    (fs (target_path dir u) = false ∨ exist_ok = true →
      ((Dbinit.download_metadata_datasets hashlib zenodo resp rows allowed dir n exist_ok
        fs).submitted.countP (fun tk => decide (tk.url = u))) = 1) := by
  have hinv := resolve_rows_flagInv zenodo allowed dir exist_ok fs rows [] es
    (flagInv_nil exist_ok fs) hres
  have htgt := resolve_rows_target zenodo allowed dir exist_ok fs rows [] es
    (by intro e he; exact absurd he (List.not_mem_nil e)) hres
  have hsub : (Dbinit.download_metadata_datasets hashlib zenodo resp rows allowed dir n
      exist_ok fs).submitted = (es.filter (fun e => e.flag)).map Dbinit.entry_task := by
    unfold Dbinit.download_metadata_datasets
    rw [hres]
    dsimp only
    rw [if_neg hn]
  have hcong : ((es.filter (fun e => e.flag)).map Dbinit.entry_task).countP
        (fun tk => decide (tk.url = u)) =
      ((es.filter (fun e => e.flag)).map Dbinit.entry_task).countP
        (fun tk => decide (tk.target = target_path dir u)) := by
    apply List.countP_congr
    intro tk htk
    rcases List.mem_map.1 htk with ⟨e, hef, rfl⟩
    rcases List.mem_filter.1 hef with ⟨he, _⟩
    simp only [decide_eq_true_eq, entry_task_url, entry_task_target]
    constructor
    · intro h1
      rw [htgt e he, h1]
    · intro h2
      exact hnc e he h2
  have hpres : presentTarget (target_path dir u) es = true := by
    rcases List.mem_map.1 hu with ⟨e, he, heu⟩
    exact presentTarget_of_mem es (target_path dir u)
      (List.mem_map.2 ⟨e, he, by rw [htgt e he, heu]⟩)
  rw [hsub, hcong, submitted_countP]
  exact ⟨flagInv_count_le_one exist_ok fs es hinv _,
    fun hfree => flagInv_count_eq_one exist_ok fs es hinv _ hpres hfree⟩

/-- Witness for C2 (amended): with no pre-existing files, the scheduler
receives exactly one task for the duplicated URL of `dupRows`. -/
theorem c2_dedup_at_most_one_witness :
    ((Dbinit.download_metadata_datasets pythonHashlib (fun _ => [])
        (fun _ => Response.mk 200 []) dupRows [none] "dl".data 4 false
        (fun _ => false)).submitted.countP
      (fun tk => decide (tk.url = dupUrl))) = 1 :=
  (c2_dedup_at_most_one pythonHashlib (fun _ => []) (fun _ => Response.mk 200 []) dupRows
    [none] "dl".data 4 false (fun _ => false)
    ((Dbinit.resolve_rows (fun _ => []) [none] "dl".data false (fun _ => false)
      dupRows []).toOption.getD [])
    dupUrl (by decide) rfl (by decide) (by decide)).2 (Or.inl rfl)

/-! ## Claim C9 -/

theorem foldl_mk_entry_urls (dir : List Char) (exist_ok : Bool) (fs : List Char → Bool)
    (ds : List Dbinit.DistributionMetadata) :
    ∀ acc, (ds.foldl (fun a d => a ++ [Dbinit.mk_entry dir exist_ok fs a d]) acc).map
        (fun e => e.url) =
      acc.map (fun e => e.url) ++ ds.map (fun d => d.download_url) := by
  induction ds with
  | nil => intro acc; simp
  | cons d rest ih =>
    intro acc
    rw [List.foldl_cons, ih]
    simp [mk_entry_url]

theorem resolve_rows_ok_urls (zenodo : List Char → List Dbinit.DistributionMetadata)
    (allowed : List (Option Dbinit.MediaType)) (dir : List Char) (exist_ok : Bool)
    (fs : List Char → Bool) :
    ∀ rows (acc es : List Dbinit.Entry),
      Dbinit.resolve_rows zenodo allowed dir exist_ok fs rows acc = .ok es →
      ∃ ds, Dbinit.resolved_distributions zenodo allowed rows = .ok ds ∧
        es.map (fun e => e.url) =
          acc.map (fun e => e.url) ++ ds.map (fun d => d.download_url) := by
  intro rows
  induction rows with
  | nil =>
    intro acc es h
    unfold Dbinit.resolve_rows at h
    injection h with h
    exact ⟨[], rfl, by rw [← h]; simp⟩
  | cons r rs ih =>
    intro acc es h
    unfold Dbinit.resolve_rows at h
    unfold Dbinit.resolved_distributions
    by_cases hskip : Dbinit.parse_media_type r.mediaType ∉ allowed
    · rw [if_pos hskip] at h ⊢
      exact ih acc es h
    · rw [if_neg hskip] at h ⊢
      cases hrd : Dbinit.row_distributions zenodo r with
      | none => rw [hrd] at h; exact absurd h (by simp)
      | some dls =>
        rw [hrd] at h
        rcases ih _ es h with ⟨ds, hds, hurl⟩
        refine ⟨dls ++ ds, by rw [hds]; rfl, ?_⟩
        rw [hurl, foldl_mk_entry_urls]
        simp [List.append_assoc]

/-- Claim C9: whenever `download_metadata_datasets` returns a list, that list
has exactly one path per resolved distribution, in catalog traversal order
(the hash-derived target path of each distribution's URL, duplicates and
skipped targets included); in the multi-threaded branch the call always
returns this list — the scheduler's return value is ignored — and the
returned value does not depend on the download responses or the digest
registry. -/
theorem c9_returned_list (hashlib hashlib' : HashRegistry)
    (zenodo : List Char → List Dbinit.DistributionMetadata)
    (resp resp' : List Char → Response) (rows : List Dbinit.BindingRow)
    (allowed : List (Option Dbinit.MediaType)) (dir : List Char) (n : Nat)
    (exist_ok : Bool) (fs : List Char → Bool) (es : List Dbinit.Entry)
    (ds : List Dbinit.DistributionMetadata)
    (hres : Dbinit.resolve_rows zenodo allowed dir exist_ok fs rows [] = .ok es)
    (hds : Dbinit.resolved_distributions zenodo allowed rows = .ok ds) :
    (∀ l, (Dbinit.download_metadata_datasets hashlib zenodo resp rows allowed dir n
        exist_ok fs).returned = .ok l →
      l = ds.map (fun d => target_path dir d.download_url)) ∧
    (n ≠ 1 →
      (Dbinit.download_metadata_datasets hashlib zenodo resp rows allowed dir n
          exist_ok fs).returned = .ok (ds.map (fun d => target_path dir d.download_url)) ∧
      (Dbinit.download_metadata_datasets hashlib zenodo resp rows allowed dir n
          exist_ok fs).returned =
        (Dbinit.download_metadata_datasets hashlib' zenodo resp' rows allowed dir n
          exist_ok fs).returned) := by
  have hmap : es.map (fun e => e.target) = ds.map (fun d => target_path dir d.download_url) := by
    rcases resolve_rows_ok_urls zenodo allowed dir exist_ok fs rows [] es hres with
      ⟨ds', hds', hurl⟩
    have hdd : ds' = ds := by
      rw [hds'] at hds
      injection hds
    have hurl2 : es.map (fun e => e.url) = ds.map (fun d => d.download_url) := by
      rw [hurl, hdd]
      simp
    have htgt := resolve_rows_target zenodo allowed dir exist_ok fs rows [] es
      (by intro e he; exact absurd he (List.not_mem_nil e)) hres
    have h2 := congrArg (List.map (target_path dir)) hurl2
    simp only [List.map_map] at h2
    calc es.map (fun e => e.target)
        = es.map (fun e => target_path dir e.url) := List.map_congr_left htgt
      _ = ds.map (fun d => target_path dir d.download_url) := by
          simpa [Function.comp] using h2
  have hret : ∀ (hl : HashRegistry) (rs : List Char → Response), n ≠ 1 →
      (Dbinit.download_metadata_datasets hl zenodo rs rows allowed dir n
        exist_ok fs).returned = .ok (ds.map (fun d => target_path dir d.download_url)) := by
    intro hl rs hn
    unfold Dbinit.download_metadata_datasets
    rw [hres]
    dsimp only
    rw [if_neg hn, hmap]
  constructor
  · intro l hl
    by_cases hn : n = 1
    · revert hl
      unfold Dbinit.download_metadata_datasets
      rw [hres]
      dsimp only
      rw [if_pos hn]
      cases hserr : (Dbinit.seq_phase hashlib resp exist_ok es fs).err with
      | some err =>
        intro hl
        exact absurd hl (by simp)
      | none =>
        intro hl
        injection hl with hl
        rw [← hl, hmap]
    · rw [hret hashlib resp hn] at hl
      injection hl with hl
      rw [← hl]
  · intro hn
    refine ⟨hret hashlib resp hn, ?_⟩
    rw [hret hashlib resp hn, hret hashlib' resp' hn]

/-- Witness for C9: on the duplicated-URL batch with `n_threads = 4`, the
returned list is the two (identical) target paths of the resolved
distributions, and it is unchanged when every download instead fails with
HTTP 404 under an empty digest registry. -/
theorem c9_returned_list_witness :
    (Dbinit.download_metadata_datasets pythonHashlib (fun _ => [])
        (fun _ => Response.mk 200 []) dupRows [none] "dl".data 4 false
        (fun _ => false)).returned =
      .ok (((Dbinit.resolved_distributions (fun _ => []) [none] dupRows).toOption.getD []).map
        (fun d => target_path "dl".data d.download_url)) ∧
    (Dbinit.download_metadata_datasets pythonHashlib (fun _ => [])
        (fun _ => Response.mk 200 []) dupRows [none] "dl".data 4 false
        (fun _ => false)).returned =
      (Dbinit.download_metadata_datasets (fun _ => none) (fun _ => [])
        (fun _ => Response.mk 404 []) dupRows [none] "dl".data 4 false
        (fun _ => false)).returned :=
  (c9_returned_list pythonHashlib (fun _ => none) (fun _ => [])
    (fun _ => Response.mk 200 []) (fun _ => Response.mk 404 []) dupRows [none] "dl".data 4
    false (fun _ => false)
    ((Dbinit.resolve_rows (fun _ => []) [none] "dl".data false (fun _ => false)
      dupRows []).toOption.getD [])
    ((Dbinit.resolved_distributions (fun _ => []) [none] dupRows).toOption.getD [])
    rfl rfl).2 (by decide)
